import Mathlib

/-!
A verification development for a small FITS reader (two Python modules:
`fits/header.py` and `fits/fits.py`).

The embedding represents Python byte strings and text strings as lists of
natural-number character codes (`PyStr`).  Pure functions of the source are
translated into Lean functions with the same names; fallible code returns
`Except`.  Regular-expression matching is embedded as explicit candidate
enumeration in the backtracking engine's preference order (greedy
quantifiers produce longest-first candidate lists, alternations are tried
left to right).  IEEE floating-point conversion (`float(...)` in Python) is
external to the embedding: float and complex values carry their matched
literals (after the `D` → `E` replacement the source performs).
-/

set_option maxRecDepth 20000

namespace Fits

/-- Python strings / byte strings: lists of character codes. -/
abbrev PyStr := List Nat

/-- `str.rstrip(' ')`: remove trailing space characters (code 32). -/
def rstripSp (s : PyStr) : PyStr :=
  (s.reverse.dropWhile (· == 32)).reverse

/-- Python whitespace characters (the ones `strip()`/`rstrip()` remove). -/
def isPyWS (c : Nat) : Bool :=
  c == 32 || c == 9 || c == 10 || c == 11 || c == 12 || c == 13

/-- `str.rstrip()`: remove trailing whitespace. -/
def rstripWS (s : PyStr) : PyStr :=
  (s.reverse.dropWhile isPyWS).reverse

/-- `str.strip()`: remove leading and trailing whitespace. -/
def stripWS (s : PyStr) : PyStr :=
  (s.dropWhile isPyWS).reverse.dropWhile isPyWS |>.reverse

/-- Fuel-indexed body of `pyReplace`; every step consumes at least one
character when the pattern is non-empty, so fuel `s.length` is always
enough. -/
def pyReplaceFuel : Nat → PyStr → PyStr → PyStr → PyStr
  | 0, s, _, _ => s
  | fuel + 1, s, pat, rep =>
    match s with
    | [] => []
    | c :: rest =>
      if pat.length > 0 && pat.isPrefixOf (c :: rest) then
        rep ++ pyReplaceFuel fuel ((c :: rest).drop pat.length) pat rep
      else
        c :: pyReplaceFuel fuel rest pat rep

/-- `str.replace(pat, rep)` for a non-empty pattern: leftmost,
non-overlapping replacement (an empty pattern is never passed here, and is
treated as no-op to keep the function total). -/
def pyReplace (s pat rep : PyStr) : PyStr :=
  pyReplaceFuel s.length s pat rep

/-- The printable-ASCII character class `[ -~]` (codes 32–126). -/
def printable (c : Nat) : Bool := 32 ≤ c && c ≤ 126

/-- Decimal digit character class `[0-9]`. -/
def isDigitC (c : Nat) : Bool := 48 ≤ c && c ≤ 57

/-! ### Regex-candidate combinators

A matcher takes the input and returns the list of `(consumed, rest)` splits
the regex fragment can produce, in the order a backtracking engine
explores them. -/

/-- A single character of a class. -/
def charCands (p : Nat → Bool) : PyStr → List (PyStr × PyStr)
  | [] => []
  | c :: rest => if p c then [([c], rest)] else []

/-- Greedy `X*` over a character class: longest first. -/
def starCands (p : Nat → Bool) (s : PyStr) : List (PyStr × PyStr) :=
  let run := (s.takeWhile p).length
  (List.range (run + 1)).reverse.map (fun k => (s.take k, s.drop k))

/-- Sequential composition of two fragments (backtracking order). -/
def seqCands (f g : PyStr → List (PyStr × PyStr)) (s : PyStr) :
    List (PyStr × PyStr) :=
  (f s).flatMap (fun t1 => (g t1.2).map (fun t2 => (t1.1 ++ t2.1, t2.2)))

/-- Ordered alternation. -/
def altCands (f g : PyStr → List (PyStr × PyStr)) (s : PyStr) :
    List (PyStr × PyStr) :=
  f s ++ g s

/-- Greedy `X?`: the present branch is tried before the absent one. -/
def optCands (f : PyStr → List (PyStr × PyStr)) (s : PyStr) :
    List (PyStr × PyStr) :=
  f s ++ [([], s)]

/-- Greedy `[0-9]+`: one digit then greedy star, giving longest-first runs. -/
def plusDigits : PyStr → List (PyStr × PyStr) :=
  seqCands (charCands isDigitC) (starCands isDigitC)

/-- `[-+]?` (codes 43 `+`, 45 `-`). -/
def signOpt : PyStr → List (PyStr × PyStr) :=
  optCands (charCands (fun c => c == 43 || c == 45))

/-! ### The keyword-value grammar (`KeywordValue` in `header.py`)

`STR = (?: ' [ -~]* ' )+` — its matches are exactly the prefixes that
start and end with a single quote (code 39) and contain only printable
characters: any such prefix is a one-segment match, since `'` itself lies
in `[ -~]`.  Greedy backtracking explores the candidate token ends from
longest to shortest. -/

/-- Candidate end positions (longest first) for the quoted-string token. -/
def quoteEnds (s : PyStr) : List Nat :=
  (List.range s.length).reverse.filter (fun j =>
    decide (1 ≤ j) && (s.getD 0 0 == 39) && (s.getD j 0 == 39) &&
      (s.take j).all printable)

/-- Candidates of the `STR` alternative. -/
def strCands (s : PyStr) : List (PyStr × PyStr) :=
  (quoteEnds s).map (fun j => (s.take (j + 1), s.drop (j + 1)))

/-- `BOOL = [TF]` (codes 84, 70). -/
def boolCands : PyStr → List (PyStr × PyStr) :=
  charCands (fun c => c == 84 || c == 70)

/-- `INT = [-+]? [0-9]+`. -/
def intCands : PyStr → List (PyStr × PyStr) :=
  seqCands signOpt plusDigits

/-- The mantissa of `FLOAT`: `(?: [0-9]+ \.? | [0-9]* \. [0-9]+ )`
(code 46 is `.`). -/
def floatMantCands : PyStr → List (PyStr × PyStr) :=
  altCands
    (seqCands plusDigits (optCands (charCands (· == 46))))
    (seqCands (starCands isDigitC)
      (seqCands (charCands (· == 46)) plusDigits))

/-- The optional exponent of `FLOAT`: `(?: [ED] [-+]? [0-9]+ )?`
(codes 69 `E`, 68 `D`). -/
def floatExpCands : PyStr → List (PyStr × PyStr) :=
  optCands (seqCands (charCands (fun c => c == 69 || c == 68))
    (seqCands signOpt plusDigits))

/-- `FLOAT = [-+]? mantissa exponent?`. -/
def floatCands : PyStr → List (PyStr × PyStr) :=
  seqCands signOpt (seqCands floatMantCands floatExpCands)

/-- `COMPLEX = \( \ * (real) \ * , \ * (imag) \ * \)` with captured real and
imaginary float literals (codes 40 `(`, 41 `)`, 44 `,`). -/
def complexCands (s : PyStr) : List ((PyStr × PyStr) × PyStr) :=
  (charCands (· == 40) s).flatMap fun t1 =>
  (starCands (· == 32) t1.2).flatMap fun t2 =>
  (floatCands t2.2).flatMap fun tre =>
  (starCands (· == 32) tre.2).flatMap fun t3 =>
  (charCands (· == 44) t3.2).flatMap fun t4 =>
  (starCands (· == 32) t4.2).flatMap fun t5 =>
  (floatCands t5.2).flatMap fun tim =>
  (starCands (· == 32) tim.2).flatMap fun t6 =>
  (charCands (· == 41) t6.2).map fun t7 => ((tre.1, tim.1), t7.2)

/-- A matched `VALUE` alternative, carrying the raw token(s). -/
inductive ParsedVal where
  | str (tok : PyStr)
  | bool (c : Nat)
  | int (tok : PyStr)
  | float (tok : PyStr)
  | complex (re im : PyStr)
deriving DecidableEq, Repr

/-- All candidates of `VALUE`, in the alternation order
string | bool | int | float | complex. -/
def valueCands (s : PyStr) : List (ParsedVal × PyStr) :=
  (strCands s).map (fun t => (ParsedVal.str t.1, t.2)) ++
  (boolCands s).map (fun t => (ParsedVal.bool (t.1.getD 0 0), t.2)) ++
  (intCands s).map (fun t => (ParsedVal.int t.1, t.2)) ++
  (floatCands s).map (fun t => (ParsedVal.float t.1, t.2)) ++
  (complexCands s).map (fun t => (ParsedVal.complex t.1.1 t.1.2, t.2))

/-- Matches the tail `\ * (?: / (?P<comment> [ -~]* ) )?` against the whole
remainder (the enclosing `fullmatch` forces the comment group to absorb
everything after `/`, which succeeds exactly when it is printable).
`none` = no match; `some none` = match without comment group;
`some (some c)` = match with raw comment `c` (code 47 is `/`). -/
def tailMatch (r : PyStr) : Option (Option PyStr) :=
  let r2 := r.dropWhile (· == 32)
  match r2 with
  | [] => some none
  | 47 :: cs => if cs.all printable then some (some cs) else none
  | _ => none

/-- Python `int()` of a matched `[-+]? [0-9]+` token. -/
def pyIntOfTok (tok : PyStr) : Int :=
  match tok with
  | 43 :: ds => Int.ofNat (ds.foldl (fun a d => a * 10 + (d - 48)) 0)
  | 45 :: ds => -Int.ofNat (ds.foldl (fun a d => a * 10 + (d - 48)) 0)
  | ds => Int.ofNat (ds.foldl (fun a d => a * 10 + (d - 48)) 0)

/-- A FITS keyword value.  Float and complex values keep the matched
literal (floats after `D`→`E` replacement); conversion to IEEE doubles is
performed by the host language and is outside this embedding. -/
inductive PyValue where
  | str (s : PyStr)
  | bool (b : Bool)
  | int (i : Int)
  | float (lit : PyStr)
  | complex (re im : PyStr)
deriving DecidableEq, Repr

/-- Conversion of a matched alternative to a value, as performed by
`parse_keyword_value`: quoted strings lose their outer quotes and decode
`''` to `'`; `T` means true; ints are converted; float literals get
`D` replaced by `E`. -/
def toPyValue : ParsedVal → PyValue
  | .str t => .str (pyReplace ((t.drop 1).dropLast) [39, 39] [39])
  | .bool c => .bool (c == 84)
  | .int t => .int (pyIntOfTok t)
  | .float t => .float (pyReplace t [68] [69])
  | .complex re im => .complex re im

/-- `parse_keyword_value(expr)`: full-match the value-clause grammar
`\ * VALUE? \ * COMMENT?`; `.error ()` models `ValueError('invalid keyword
value')`.  Leading spaces are consumed greedily (no value alternative and
no comment starts with a space, so this is the only viable split), then the
value alternatives are tried in order with the tail matcher deciding
whether the remainder completes the full match. -/
def parse_keyword_value (expr : PyStr) :
    Except Unit (Option PyValue × Option PyStr) :=
  match (valueCands (expr.dropWhile (· == 32))).findSome?
      (fun pc => (tailMatch pc.2).map (fun c => (some pc.1, c))) with
  | some (pv, c) => .ok (pv.map toPyValue, c.map stripWS)
  | none =>
    match tailMatch (expr.dropWhile (· == 32)) with
    | some c => .ok (none, c.map stripWS)
    | none => .error ()

/-! ### `parse_keyword` -/

def strEND : PyStr := [69, 78, 68]
def strCONTINUE : PyStr := [67, 79, 78, 84, 73, 78, 85, 69]
def strCOMMENT : PyStr := [67, 79, 77, 77, 69, 78, 84]
def strHISTORY : PyStr := [72, 73, 83, 84, 79, 82, 89]
def strSIMPLE : PyStr := [83, 73, 77, 80, 76, 69]
def strXTENSION : PyStr := [88, 84, 69, 78, 83, 73, 79, 78]

/-- `parse_keyword(record)`: split an 80-character record into
`(keyword, value, comment)`.  The `END` terminator yields all-absent;
`CONTINUE` records, and records that are not commentary (`COMMENT`,
`HISTORY`, blank keyword) and carry the `"= "` marker at positions 8–9,
get their tail parsed as a value clause; every other record takes
`record[8:]` right-trimmed as a string value. -/
def parse_keyword (record : PyStr) :
    Except Unit (Option PyStr × Option PyValue × Option PyStr) :=
  let keyword := rstripSp (record.take 8)
  if keyword = strEND then
    .ok (none, none, none)
  else if keyword = strCONTINUE ∨
      (keyword ∉ [strCOMMENT, strHISTORY, ([] : PyStr)] ∧
        (record.drop 8).take 2 = [61, 32]) then
    match parse_keyword_value (record.drop 10) with
    | .error e => .error e
    | .ok (v, c) => .ok (some keyword, v, c)
  else
    .ok (some keyword, some (.str (rstripSp (record.drop 8))), none)

/-! ### Header mapping and the duplicate-suffix insertion of `read_header` -/

/-- A header: a Python dict from keyword to value, modelled as an ordered
association list whose keys the insertion discipline keeps unique. -/
abbrev Header := List (PyStr × PyValue)

/-- The keys of a header. -/
def keysOf (h : Header) : List PyStr := h.map Prod.fst

/-- Fuel-indexed base-10 digit extraction, least significant first; fuel
`n` is always sufficient since `n / 10 < n` for `n ≥ 1`. -/
def digitsRev : Nat → Nat → List Nat
  | 0, _ => []
  | fuel + 1, n => if n = 0 then [] else n % 10 :: digitsRev fuel (n / 10)

/-- Decimal digits of a natural number (Python `str(n)` for `n ≥ 0`). -/
def natDigits (n : Nat) : PyStr :=
  if n = 0 then [48] else ((digitsRev n n).reverse).map (· + 48)

/-- The candidate names tried by the duplicate loop: the keyword itself,
then `f'{keyword}.{ndup}'` for `ndup = 1, 2, …` (code 46 is `.`). -/
def mkName (kw : PyStr) : Nat → PyStr
  | 0 => kw
  | k + 1 => kw ++ 46 :: natDigits (k + 1)

/-- The `while name in keywords` probe of `read_header`.  The fuel is an
artifact of totality: `keywords.length + 1` candidates always contain a
fresh one (`probeLoop_fresh`), so the fuel never runs out in `freshKey`. -/
def probeLoop (kw : PyStr) (keys : List PyStr) : Nat → Nat → PyStr
  | 0, ndup => mkName kw ndup
  | fuel + 1, ndup =>
    let name := mkName kw ndup
    if name ∈ keys then probeLoop kw keys fuel (ndup + 1) else name

/-- The key under which `read_header` stores a (possibly duplicate)
keyword's value. -/
def freshKey (kw : PyStr) (keys : List PyStr) : PyStr :=
  probeLoop kw keys (keys.length + 1) 0

/-- Python dict assignment `d[k] = v` on the association-list model. -/
def dictInsert (h : Header) (k : PyStr) (v : PyValue) : Header :=
  if k ∈ keysOf h then
    h.map (fun p => if p.1 = k then (k, v) else p)
  else
    h ++ [(k, v)]

/-- `keywords[name] = value` with the duplicate-suffix probe (lines
158–164 of `header.py`). -/
def insertKeyword (h : Header) (kw : PyStr) (v : PyValue) : Header :=
  dictInsert h (freshKey kw (keysOf h)) v

/-- Python dict lookup `h[k]` (`none` models `KeyError`). -/
def dictGet (h : Header) (k : PyStr) : Option PyValue :=
  (h.find? (fun p => p.1 == k)).map Prod.snd

/-- Python `h.get(k, d)`. -/
def dictGetD (h : Header) (k : PyStr) (d : PyValue) : PyValue :=
  (dictGet h k).getD d

/-! ### The block-structured header reader -/

/-- A byte source with a read/seek cursor (`fp`). -/
structure Src where
  data : List Nat
  pos : Nat
deriving DecidableEq, Repr

/-- Does the list have at least `n` elements?  (Tail-recursive form of
`n ≤ l.length`.) -/
def hasLen : List Nat → Nat → Bool
  | _, 0 => true
  | [], _ + 1 => false
  | _ :: l, n + 1 => hasLen l n

/-- `read_block`: read up to 2880 bytes into the buffer; a short read
returns `None`.  The cursor advances by the number of bytes actually read
(`min 2880 remaining`), as `readinto` does. -/
def read_block (s : Src) : Option (List Nat) × Src :=
  if hasLen (s.data.drop s.pos) 2880 then
    (some ((s.data.drop s.pos).take 2880), ⟨s.data, s.pos + 2880⟩)
  else
    (none, ⟨s.data, s.pos + ((s.data.drop s.pos).take 2880).length⟩)

/-- The errors `read_header` can raise: `notThisFormat` is `HDUError`;
the other three are the `TypeError('incomplete block in header')`,
`TypeError('invalid characters in header')` and
`ValueError(f'record {nrecords}…')` raised for structural violations
(the diagnostic text is not modelled, the record index is). -/
inductive HdrErr where
  | notThisFormat
  | incompleteBlock
  | invalidChars
  | badRecord (n : Nat)
deriving DecidableEq, Repr

/-- The slices `block[i:i+80]` for `i in range(0, 2880, 80)`: the 36
records of one header block. -/
def blockRecords (block : List Nat) : List PyStr :=
  (List.range 36).map (fun k => (block.drop (80 * k)).take 80)

/-- The first-record requirement (lines 145–151 of `header.py`): primary
headers must open with `SIMPLE` = boolean true, extension headers with
`XTENSION` carrying a string value. -/
def firstRecordOK (primary : Bool) (kw : Option PyStr) (v : Option PyValue) :
    Bool :=
  if primary then
    kw == some strSIMPLE && v == some (.bool true)
  else
    kw == some strXTENSION &&
      (match v with | some (.str _) => true | _ => false)

/-- The per-record loop body of `read_header` over one block's records:
increment `nrecords`, parse, apply the first-record check, stop at the
terminator, insert non-null values.  Returns the updated mapping, the
updated record counter and whether the terminator was seen. -/
def procRecords : List PyStr → Nat → Bool → Header →
    Except HdrErr (Header × Nat × Bool)
  | [], n, _, kws => .ok (kws, n, false)
  | r :: rest, n, primary, kws =>
    match parse_keyword r with
    | .error _ =>
      if n + 1 = 1 then .error .notThisFormat else .error (.badRecord (n + 1))
    | .ok (kw, v, _c) =>
      if n + 1 = 1 && !firstRecordOK primary kw v then
        .error .notThisFormat
      else
        match kw with
        | none => .ok (kws, n + 1, true)
        | some kwd =>
          match v with
          | none => procRecords rest (n + 1) primary kws
          | some vv => procRecords rest (n + 1) primary (insertKeyword kws kwd vv)

/-- The `while not ended` block loop of `read_header`.  The first argument
is structural fuel: `read_header` passes the unread suffix of the source,
and each iteration pops one element while a successful block read consumes
2880 bytes of that suffix, so whenever the loop is entered with fuel at
least as long as the unread suffix the empty-fuel case coincides with a
short (empty) block read — exactly what the real loop does there. -/
def read_headerLoop (primary : Bool) :
    List Nat → Src → Header → Nat → Except HdrErr (Header × Src)
  | [], _, _, n =>
    if n = 0 then .error .notThisFormat else .error .incompleteBlock
  | _ :: fuel, s, kws, n =>
    match read_block s with
    | (none, _) =>
      if n = 0 then .error .notThisFormat else .error .incompleteBlock
    | (some block, s') =>
      -- the source checks min(block) < 32 or max(block) > 126, which for a
      -- non-empty block is exactly the failure of this all-printable test
      if !block.all printable then .error .invalidChars
      else
        match procRecords (blockRecords block) n primary kws with
        | .error e => .error e
        | .ok (kws', n', ended) =>
          if ended then .ok (kws', s') else read_headerLoop primary fuel s' kws' n'

/-- `read_header(fp, primary=…)`: read blocks until the `END` terminator,
assembling the keyword mapping. -/
def read_header (s : Src) (primary : Bool) : Except HdrErr (Header × Src) :=
  read_headerLoop primary (s.data.drop s.pos) s [] 0

/-! ### `fits.py`: layouts, data units, skipping and the walker

The `mmap`/`numpy` calls are modelled by recording what they would map: a
`DataDesc.mapped` carries the shape handed to the array view, the resolved
dtype, the file offset at which the data starts (`fp.tell()`), and the
byte count `nbytes`; the granularity alignment of the mapping and the
finalizer that closes it are resource-level behaviour outside the
embedding, and mapping construction is modelled as succeeding.  Numeric
header values are Python ints or bools (a bool is its 0/1 int value in
arithmetic contexts); a non-numeric value where Python would raise a
`TypeError` maps to `LoadErr.typeError`. -/

def strBITPIX : PyStr := [66, 73, 84, 80, 73, 88]
def strNAXIS : PyStr := [78, 65, 88, 73, 83]
def strEXTEND : PyStr := [69, 88, 84, 69, 78, 68]
def strPCOUNT : PyStr := [80, 67, 79, 85, 78, 84]
def strGCOUNT : PyStr := [71, 67, 79, 85, 78, 84]
def strTFIELDS : PyStr := [84, 70, 73, 69, 76, 68, 83]
def strTTYPE : PyStr := [84, 84, 89, 80, 69]
def strTFORM : PyStr := [84, 70, 79, 82, 77]
def strIMAGE : PyStr := [73, 77, 65, 71, 69]
def strBINTABLE : PyStr := [66, 73, 78, 84, 65, 66, 76, 69]

/-- The numeric (int) content of a value, where Python arithmetic and
comparisons accept it: ints are themselves, bools count as 0/1. -/
def asPyInt : PyValue → Option Int
  | .int i => some i
  | .bool b => some (if b then 1 else 0)
  | _ => none

/-- Errors of the `fits.py` layer.  `keyError k` models a Python
`KeyError` on header lookup `header[k]`, `typeError` a `TypeError` from
applying numeric/string operations to a value of the wrong type,
`valueError` the `ValueError`s raised for unsupported BITPIX/TFORM/
extension kinds, `notFits` the `TypeError('not a FITS file')` raised by
`load`, `headerErr` a propagated header-reader error, and `fuelOut` is
the totality artifact for `load`'s walker loop (reachable only where the
Python loop would not terminate, e.g. a negative data skip). -/
inductive LoadErr where
  | keyError (k : PyStr)
  | typeError
  | valueError
  | notFits
  | headerErr (e : HdrErr)
  | fuelOut
deriving DecidableEq, Repr

/-- The tuple comprehension of `shape_from_header`: the values of
`NAXIS{i}` for `i = first, …, first + todo - 1`, each required present
and numeric.  (Python collects raw values and would only raise the
`TypeError` for a non-numeric axis later, inside the size arithmetic; the
conversion is placed here to keep the shape a list of integers.) -/
def axesFrom (h : Header) : Nat → Nat → Except LoadErr (List Int)
  | 0, _ => .ok []
  | todo + 1, i =>
    match dictGet h (strNAXIS ++ natDigits i) with
    | none => .error (.keyError (strNAXIS ++ natDigits i))
    | some v =>
      match asPyInt v with
      | none => .error .typeError
      | some k =>
        match axesFrom h todo (i + 1) with
        | .error e => .error e
        | .ok rest => .ok (k :: rest)

/-- `shape_from_header`: `header['NAXIS']` (KeyError when absent), and if
positive the tuple `(header['NAXIS1'], …, header['NAXISn'])`; `None`
(no data) otherwise. -/
def shape_from_header (h : Header) : Except LoadErr (Option (List Int)) :=
  match dictGet h strNAXIS with
  | none => .error (.keyError strNAXIS)
  | some v =>
    match asPyInt v with
    | none => .error .typeError
    | some naxis =>
      if 0 < naxis then
        match axesFrom h naxis.toNat 1 with
        | .error e => .error e
        | .ok shape => .ok (some shape)
      else
        .ok none

/-- An element layout: the scalar dtype string of an IMAGE unit, or the
ordered `(name, format)` field list of a BINTABLE. -/
inductive Dtype where
  | scalar (fmt : PyStr)
  | fields (l : List (PyStr × PyStr))
deriving DecidableEq, Repr

/-- `BITPIX_DTYPE_MAP` (any other value – or a non-int – misses the dict
and becomes the `ValueError` of `image_dtype`). -/
def bitpixFmt : PyValue → Option PyStr
  | .int 8 => some [117, 49]          -- u1
  | .int 16 => some [105, 50]         -- i2
  | .int 32 => some [105, 52]         -- i4
  | .int 64 => some [105, 56]         -- i8
  | .int (-32) => some [102, 52]      -- f4
  | .int (-64) => some [102, 56]      -- f8
  | _ => none

/-- `image_dtype`: look up BITPIX and prefix the big-endian marker `>`
(code 62). -/
def image_dtype (h : Header) : Except LoadErr Dtype :=
  match dictGet h strBITPIX with
  | none => .error (.keyError strBITPIX)
  | some v =>
    match bitpixFmt v with
    | some fmt => .ok (.scalar (62 :: fmt))
    | none => .error .valueError

/-- `TFORM_DTYPE_MAP`, keyed by the type-code character. -/
def tformFmt (c : Nat) : Option PyStr :=
  if c = 76 then some [63] else              -- L ?
  if c = 88 then some [117, 49] else         -- X u1
  if c = 66 then some [117, 49] else         -- B u1
  if c = 73 then some [105, 50] else         -- I i2
  if c = 74 then some [105, 52] else         -- J i4
  if c = 75 then some [105, 56] else         -- K i8
  if c = 65 then some [85] else              -- A U
  if c = 69 then some [102, 52] else         -- E f4
  if c = 68 then some [102, 56] else         -- D f8
  if c = 67 then some [99, 56] else          -- C c8
  if c = 77 then some [99, 49, 54] else      -- M c16
  none

/-- `tform_regex.fullmatch`: an optional greedy digit run, one type code,
then `.*` (which in a non-DOTALL regex matches anything but a newline,
code 10).  Greediness collapses to determinism here because no digit is a
type code. -/
def tform_match (s : PyStr) : Option (Option PyStr × Nat) :=
  let d := s.takeWhile isDigitC
  match s.drop d.length with
  | c :: tail =>
    if (tformFmt c).isSome && tail.all (· ≠ 10) then
      some ((if d.isEmpty then none else some d), c)
    else none
  | [] => none

/-- Python `int()` of a digit run. -/
def digitsToNat (d : PyStr) : Nat :=
  d.foldl (fun a c => a * 10 + (c - 48)) 0

/-- The format string composed for one BINTABLE field (lines 88–99 of
`fits.py`): `X` counts get rounded by `c += 1` when `c % 8` is non-zero
and prefix the byte format; `A` counts are appended to `U`; other counts
prefix the base format. -/
def tformCompose (count : Option PyStr) (c : Nat) : PyStr :=
  let fmt := (tformFmt c).getD []
  match count with
  | none => fmt
  | some d =>
    if c = 88 then
      let n := digitsToNat d
      let n' := if n % 8 ≠ 0 then n + 1 else n
      natDigits n' ++ fmt
    else if c = 65 then
      fmt ++ d
    else
      d ++ fmt

/-- One field of `bintable_dtype`: name from `TTYPE{n+1}` (default
`f{n}`, code 102 is `f`) right-stripped, format from `TFORM{n+1}` with
the `>` prefix. -/
def bintableField (h : Header) (n : Nat) :
    Except LoadErr (PyStr × PyStr) :=
  let ttype := dictGetD h (strTTYPE ++ natDigits (n + 1))
    (.str (102 :: natDigits n))
  match ttype with
  | .str tname =>
    match dictGet h (strTFORM ++ natDigits (n + 1)) with
    | none => .error (.keyError (strTFORM ++ natDigits (n + 1)))
    | some tform =>
      match tform with
      | .str ts =>
        match tform_match ts with
        | none => .error .valueError
        | some (count, c) => .ok (rstripWS tname, 62 :: tformCompose count c)
      | _ => .error .typeError
  | _ => .error .typeError

/-- The `for n in range(tfields)` loop of `bintable_dtype`; `todo` runs
down while `n` runs up, preserving field order. -/
def bintableFields (h : Header) : Nat → Nat →
    Except LoadErr (List (PyStr × PyStr))
  | 0, _ => .ok []
  | todo + 1, n =>
    match bintableField h n with
    | .error e => .error e
    | .ok f =>
      match bintableFields h todo (n + 1) with
      | .error e => .error e
      | .ok fs => .ok (f :: fs)

/-- `bintable_dtype`: one field per index `1..TFIELDS` (a non-positive
TFIELDS gives an empty range, a non-numeric one Python's `TypeError`). -/
def bintable_dtype (h : Header) : Except LoadErr Dtype :=
  match dictGet h strTFIELDS with
  | none => .error (.keyError strTFIELDS)
  | some v =>
    match asPyInt v with
    | none => .error .typeError
    | some tfields =>
      match bintableFields h tfields.toNat 0 with
      | .error e => .error e
      | .ok fs => .ok (.fields fs)

/-- `dtype_from_header`: dispatch on `XTENSION` (default `IMAGE`),
right-stripped; other kinds raise the unsupported-extension ValueError. -/
def dtype_from_header (h : Header) : Except LoadErr Dtype :=
  match dictGetD h strXTENSION (.str strIMAGE) with
  | .str k =>
    let kind := rstripWS k
    if kind = strIMAGE then image_dtype h
    else if kind = strBINTABLE then bintable_dtype h
    else .error .valueError
  | _ => .error .typeError

/-- Look up a numeric keyword with a default (`header.get(k, d)` feeding
arithmetic). -/
def getNum (h : Header) (k : PyStr) (d : Int) : Except LoadErr Int :=
  match dictGet h k with
  | none => .ok d
  | some v =>
    match asPyInt v with
    | none => .error .typeError
    | some i => .ok i

/-- Require a numeric keyword (`header[k]` feeding arithmetic). -/
def reqNum (h : Header) (k : PyStr) : Except LoadErr Int :=
  match dictGet h k with
  | none => .error (.keyError k)
  | some v =>
    match asPyInt v with
    | none => .error .typeError
    | some i => .ok i

/-- `skip_data(fp, header)`: when the header describes data, seek forward
by the padded size `ndata + (2880 - ndata % 2880) % 2880` where
`ndata = abs(BITPIX)//8 * (PCOUNT(default 0) + prod(shape))` — note the
source computes this without the GCOUNT factor.  (`seek(nskip, 1)` with
the cursor clamped at zero for a negative target, which only a negative
header value can produce.) -/
def skip_data (s : Src) (h : Header) : Except LoadErr Src :=
  match shape_from_header h with
  | .error e => .error e
  | .ok none => .ok s
  | .ok (some shape) =>
    match reqNum h strBITPIX with
    | .error e => .error e
    | .ok bitpix =>
      match getNum h strPCOUNT 0 with
      | .error e => .error e
      | .ok pcount =>
        let ndata : Int := |bitpix| / 8 * (pcount + shape.prod)
        let nskip : Int := ndata + (2880 - ndata % 2880) % 2880
        .ok ⟨s.data, ((s.pos : Int) + nskip).toNat⟩

/-- The array a data unit exposes: either a freshly allocated empty array
of the given dtype (no mapping), or a zero-copy view with the given
shape/dtype over a read-only mapping of `nbytes` bytes starting at byte
`offset` of the source, in first-axis-fastest (Fortran) order. -/
inductive DataDesc where
  | empty (dtype : Dtype)
  | mapped (shape : List Int) (dtype : Dtype) (offset : Nat) (nbytes : Int)
deriving DecidableEq, Repr

/-- A data unit: the array view together with its header metadata
(`HduArray`). -/
structure DataUnit where
  header : Header
  data : DataDesc
deriving DecidableEq, Repr

/-- `hdu(fp, header)`: resolve shape and dtype; without axes return a
fresh empty array; otherwise compute
`nbytes = abs(BITPIX)//8 * GCOUNT(default 1) * (PCOUNT(default 0) + prod(shape))`,
drop the first shape axis for row-structured (list) dtypes, and map
`nbytes` bytes at the current cursor (which `mmap` leaves unmoved). -/
def hdu (s : Src) (h : Header) : Except LoadErr DataUnit :=
  match shape_from_header h with
  | .error e => .error e
  | .ok shapeOpt =>
    match dtype_from_header h with
    | .error e => .error e
    | .ok dtype =>
      match shapeOpt with
      | none => .ok ⟨h, .empty dtype⟩
      | some shape =>
        match reqNum h strBITPIX with
        | .error e => .error e
        | .ok bitpix =>
          match getNum h strPCOUNT 0 with
          | .error e => .error e
          | .ok pcount =>
            match getNum h strGCOUNT 1 with
            | .error e => .error e
            | .ok gcount =>
              let nbytes : Int := |bitpix| / 8 * gcount * (pcount + shape.prod)
              let shape' := match dtype with
                | .fields _ => shape.drop 1
                | .scalar _ => shape
              .ok ⟨h, .mapped shape' dtype s.pos nbytes⟩

/-- The `while True` extension loop of `load`.  Structural fuel: `load`
passes the source data, and every iteration whose header read succeeds
consumes at least 2880 source bytes, so the `fuelOut` branch is reachable
only where the Python loop itself would fail to advance (negative skip). -/
def loadLoop : List Nat → Src → Header → List DataUnit →
    Except LoadErr (List DataUnit)
  | [], _, _, _ => .error .fuelOut
  | _ :: fuel, s, h, acc =>
    match skip_data s h with
    | .error e => .error e
    | .ok s1 =>
      match read_header s1 false with
      | .error .notThisFormat => .ok acc
      | .error e => .error (.headerErr e)
      | .ok (h2, s2) =>
        match hdu s2 h2 with
        | .error e => .error e
        | .ok u => loadLoop fuel s2 h2 (acc ++ [u])

/-- `load(fp)`: read the primary header (an `HDUError` becomes
`TypeError('not a FITS file')`), build its data unit, and when `EXTEND`
is exactly boolean `True` walk the extensions. -/
def load (s : Src) : Except LoadErr (List DataUnit) :=
  match read_header s true with
  | .error .notThisFormat => .error .notFits
  | .error e => .error (.headerErr e)
  | .ok (h, s1) =>
    match hdu s1 h with
    | .error e => .error e
    | .ok u =>
      match dictGet h strEXTEND with
      | none => .error (.keyError strEXTEND)
      | some v =>
        if v = .bool true then loadLoop s.data s1 h [u] else .ok [u]

/-! ### Auxiliary definitions for the stated properties -/

/-- Re-encoding of a string into a quoted-string literal body: every
single quote is doubled (the inverse direction of the `''` decoding). -/
def encodeQuoted : PyStr → PyStr
  | [] => []
  | c :: r => (if c = 39 then [39, 39] else [c]) ++ encodeQuoted r

/-- What record 1 contributes to the fault condition: its grammar fails,
or it lacks the required `SIMPLE`/`XTENSION` opening. -/
def rec1Fault (p : Bool) (r1 : PyStr) : Bool :=
  match parse_keyword r1 with
  | .error _ => true
  | .ok (kw, v, _) => !firstRecordOK p kw v

/-- Whether the very first record or block of a unit is at fault, the
`NotThisFormat` condition: the first 2880-byte block is short (or the
source empty), or — the block being complete and printable — record 1
fails the grammar or fails the `SIMPLE`/`XTENSION` requirement.  (A
non-printable byte anywhere in the first block is reported as
`MalformedHeader` before any record is parsed.) -/
def firstFault (s : Src) (primary : Bool) : Bool :=
  if !hasLen (s.data.drop s.pos) 2880 then true
  else if !((s.data.drop s.pos).take 2880).all printable then false
  else rec1Fault primary (((s.data.drop s.pos).take 2880).take 80)

/-- Count of value-bearing non-terminator records in a record list, up to
the terminator: the number of entries `read_header` inserts for them.
Also reports whether the terminator was reached.  (A grammar failure
aborts the read, so its counting is irrelevant under a successful read.) -/
def countRecs : List PyStr → Nat × Bool
  | [] => (0, false)
  | r :: rest =>
    match parse_keyword r with
    | .error _ => (0, true)
    | .ok (none, _, _) => (0, true)
    | .ok (some _, none, _) => countRecs rest
    | .ok (some _, some _, _) =>
      let ce := countRecs rest
      (ce.1 + 1, ce.2)

/-- Block-by-block accumulation of `countRecs` along the source, mirroring
the reader's block loop (same structural fuel discipline). -/
def countLoop : List Nat → Src → Nat
  | [], _ => 0
  | _ :: fuel, s =>
    match read_block s with
    | (none, _) => 0
    | (some block, s') =>
      let ce := countRecs (blockRecords block)
      if ce.2 then ce.1 else ce.1 + countLoop fuel s'

/-- The number of value-bearing non-terminator records a header read of
`s` processes: one per entry the mapping should hold. -/
def headerCount (s : Src) : Nat := countLoop (s.data.drop s.pos) s

/-! ### Concrete inputs used by witnesses and counterexamples -/

/-- Character codes of a text string. -/
def s2c (s : String) : PyStr := s.toList.map Char.toNat

/-- Pad a record to its fixed 80 characters with spaces. -/
def padRec (l : PyStr) : PyStr := l ++ List.replicate (80 - l.length) 32

/-- Assemble one 2880-byte header block from records, space-padded. -/
def mkBlock (rs : List PyStr) : List Nat :=
  let l := (rs.map padRec).flatten
  l ++ List.replicate (2880 - l.length) 32

/-- The skip/nbytes discrepancy input: BITPIX=8, GCOUNT=2, NAXIS=1,
NAXIS1=2880. -/
def headerC2 : Header :=
  [(strBITPIX, .int 8), (strGCOUNT, .int 2), (strNAXIS, .int 1),
   (strNAXIS ++ [49], .int 2880)]

/-- A BINTABLE header with TFIELDS=1 and TFORM1 = `3X`. -/
def headerC3 : Header :=
  [(strXTENSION, .str strBINTABLE), (strTFIELDS, .int 1),
   (strTFORM ++ [49], .str [51, 88])]

/-- A primary header block with no `EXTEND` record. -/
def srcNoExtend : Src :=
  ⟨mkBlock [s2c ("SIMPLE  =                    T"),
            s2c ("BITPIX  =                    8"),
            s2c ("NAXIS   =                    0"),
            strEND], 0⟩

/-- A primary header block with `EXTEND = F`. -/
def srcExtendF : Src :=
  ⟨mkBlock [s2c ("SIMPLE  =                    T"),
            s2c ("BITPIX  =                    8"),
            s2c ("NAXIS   =                    0"),
            s2c ("EXTEND  =                    F"),
            strEND], 0⟩

/-- A primary header block whose records repeat the commentary keyword
`COMMENT` twice. -/
def srcTwoComments : Src :=
  ⟨mkBlock [s2c ("SIMPLE  =                    T"),
            s2c ("COMMENT a"),
            s2c ("COMMENT b"),
            strEND], 0⟩

/-- The header `srcTwoComments` produces: the second `COMMENT` record is
stored under the synthesized key `COMMENT.1`. -/
def headerTwoComments : Header :=
  [(strSIMPLE, .bool true),
   (strCOMMENT, .str [97]),
   (strCOMMENT ++ [46, 49], .str [98])]

/-- A primary header block carrying two value records and one
null-value record (`DULL    =`), for counting entries. -/
def srcCount : Src :=
  ⟨mkBlock [s2c ("SIMPLE  =                    T"),
            s2c ("BITPIX  =                   16"),
            s2c ("DULL    ="),
            s2c ("NAXIS   =                    0"),
            strEND], 0⟩

/-- The header `srcCount` produces. -/
def headerCountRes : Header :=
  [(strSIMPLE, .bool true), (strBITPIX, .int 16), (strNAXIS, .int 0)]

/-- An 80-character record with a bare keyword `FOO` and no `= ` marker. -/
def recFOO : PyStr := padRec (s2c ("FOO     bar"))

/-- An all-space block. -/
def blockBlank : List Nat := List.replicate 2880 32

/-- A header with NAXIS present and zero (and BITPIX=8). -/
def headerN0 : Header := [(strNAXIS, .int 0), (strBITPIX, .int 8)]

end Fits

namespace Fits

/-! ## Theorems -/

/-- C2: the claim says the walker advances past the data by
`skip = nbytes + padding` with `nbytes` *including* the `GCOUNT`
multiplier.  The code's `skip_data` computes `ndata` without `GCOUNT`:
for BITPIX=8, GCOUNT=2, NAXIS=1, NAXIS1=2880 it advances the cursor by
2880 bytes, while the same program's `hdu` computes the data unit's byte
count as 5760 (with `GCOUNT`), whose padded skip would also be 5760. -/
theorem skip_data_omits_gcount :
    skip_data ⟨[], 0⟩ headerC2 = .ok ⟨[], 2880⟩ ∧
    hdu ⟨[], 0⟩ headerC2 =
      .ok ⟨headerC2, .mapped [2880] (.scalar [62, 117, 49]) 0 5760⟩ ∧
    (5760 : Int) + (2880 - 5760 % 2880) % 2880 ≠ 2880 :=
  ⟨rfl, rfl, by decide⟩

/-- C3: for `TFORM1 = '3X'` the code resolves the field to format `>4u1`
— a four-byte field — because its rounding is `c += 1` when `c % 8 ≠ 0`;
the claimed byte width is `ceil(3/8) = 1`. -/
theorem bintable_x_width_not_ceil :
    bintable_dtype headerC3 = .ok (.fields [([102, 48], [62, 52, 117, 49])]) ∧
    digitsToNat [51] = 3 ∧ (4 : Nat) ≠ (3 + 7) / 8 :=
  ⟨rfl, rfl, by decide⟩

/-- C4: when the primary header carries no `EXTEND` keyword, `load` does
not return a single-element sequence: the lookup `header['EXTEND']`
raises `KeyError`.  When `EXTEND` is *present* and not exactly boolean
true, `load` does stop after the primary unit and return the
single-element sequence (shown concretely for `EXTEND = F` and in
general). -/
theorem load_keyerror_without_extend :
    load srcNoExtend = .error (.keyError strEXTEND) ∧
    load srcExtendF =
      .ok [⟨[(strSIMPLE, .bool true), (strBITPIX, .int 8),
             (strNAXIS, .int 0), (strEXTEND, .bool false)],
            .empty (.scalar [62, 117, 49])⟩] ∧
    (∀ s h s1 u v, read_header s true = .ok (h, s1) → hdu s1 h = .ok u →
      dictGet h strEXTEND = some v → v ≠ .bool true → load s = .ok [u]) := by
  refine ⟨rfl, rfl, ?_⟩
  intro s h s1 u v h1 h2 h3 h4
  unfold load
  rw [h1]
  dsimp only
  rw [h2]
  dsimp only
  rw [h3]
  dsimp only
  rw [if_neg h4]

/-- C4 witness: the general stop-after-primary statement applied to the
`EXTEND = F` source. -/
theorem load_keyerror_without_extend_witness :
    load srcExtendF =
      .ok [⟨[(strSIMPLE, .bool true), (strBITPIX, .int 8),
             (strNAXIS, .int 0), (strEXTEND, .bool false)],
            .empty (.scalar [62, 117, 49])⟩] :=
  load_keyerror_without_extend.2.2 srcExtendF
    [(strSIMPLE, .bool true), (strBITPIX, .int 8),
     (strNAXIS, .int 0), (strEXTEND, .bool false)]
    ⟨srcExtendF.data, 2880⟩
    ⟨[(strSIMPLE, .bool true), (strBITPIX, .int 8),
      (strNAXIS, .int 0), (strEXTEND, .bool false)],
     .empty (.scalar [62, 117, 49])⟩
    (.bool false) rfl rfl rfl (by decide)

/-- C5 counterexample: for a header in which `NAXIS` is absent, `hdu`
does not build a data unit with a zero-length array — the lookup
`header['NAXIS']` raises `KeyError`. -/
theorem hdu_keyerror_without_naxis :
    hdu ⟨[], 0⟩ [] = .error (.keyError strNAXIS) := rfl

/-- C5 amended: when `NAXIS` is *present* and non-positive and the
element type resolves, `hdu` returns a data unit wrapping a freshly
allocated zero-length array of that type — no mapping is opened. -/
theorem hdu_empty_of_nonpositive_naxis (h : Header) (v : PyValue) (n : Int)
    (d : Dtype) (s : Src) (hv : dictGet h strNAXIS = some v)
    (hn : asPyInt v = some n) (hle : n ≤ 0)
    (hd : dtype_from_header h = .ok d) :
    hdu s h = .ok ⟨h, .empty d⟩ := by
  have hsh : shape_from_header h = .ok none := by
    simp only [shape_from_header, hv, hn, if_neg (by omega : ¬ (0 : Int) < n)]
  simp only [hdu, hsh, hd]

/-- C5 witness: the amended statement at NAXIS=0, BITPIX=8. -/
theorem hdu_empty_of_nonpositive_naxis_witness :
    hdu ⟨[], 0⟩ headerN0 = .ok ⟨headerN0, .empty (.scalar [62, 117, 49])⟩ :=
  hdu_empty_of_nonpositive_naxis headerN0 (.int 0) 0 (.scalar [62, 117, 49])
    ⟨[], 0⟩ rfl rfl (by decide) rfl

/-- The record loop's counter: when a block's records are processed
without meeting the terminator, the running counter has been incremented
exactly once per record. -/
theorem procRecords_counter (recs : List PyStr) : ∀ n p kws kws' n',
    procRecords recs n p kws = .ok (kws', n', false) → n' = n + recs.length := by
  induction recs with
  | nil =>
    intro n p kws kws' n' h
    simp only [procRecords, Except.ok.injEq, Prod.mk.injEq] at h
    simp [← h.2.1]
  | cons r rest ih =>
    intro n p kws kws' n' h
    rw [procRecords] at h
    cases hp : parse_keyword r with
    | error e =>
      rw [hp] at h
      dsimp only at h
      split at h <;> simp at h
    | ok t =>
      obtain ⟨kw, v, c⟩ := t
      rw [hp] at h
      dsimp only at h
      split at h
      · simp at h
      · cases kw with
        | none => simp at h
        | some kwd =>
          dsimp only at h
          cases v with
          | none =>
            have := ih (n + 1) p kws kws' n' h
            simp only [List.length_cons]
            omega
          | some vv =>
            have := ih (n + 1) p _ kws' n' h
            simp only [List.length_cons]
            omega

/-- C1 amended: a 2880-byte header block is partitioned into **36**
80-byte records, processed in order with the running record counter
incremented once per record (so a block whose records carry no terminator
advances the counter by exactly 36). -/
theorem header_block_36_records (block : List Nat) (hb : block.length = 2880) :
    (blockRecords block).length = 36 ∧
    (∀ r ∈ blockRecords block, r.length = 80) ∧
    (∀ n p kws kws' n',
      procRecords (blockRecords block) n p kws = .ok (kws', n', false) →
        n' = n + 36) := by
  refine ⟨by simp [blockRecords], ?_, ?_⟩
  · intro r hr
    simp only [blockRecords, List.mem_map, List.mem_range] at hr
    obtain ⟨k, hk, rfl⟩ := hr
    simp only [List.length_take, List.length_drop, hb]
    omega
  · intro n p kws kws' n' h
    have := procRecords_counter (blockRecords block) n p kws kws' n' h
    simpa [blockRecords] using this

/-- C1 counterexample: a header block contains 36 records, not 18 — here
on the all-space block. -/
theorem block_records_not_18 :
    (blockRecords blockBlank).length = 36 ∧ (36 : Nat) ≠ 18 :=
  ⟨by simp [blockRecords], by decide⟩

/-- C1 witness: the amended statement applied to the all-space block. -/
theorem header_block_36_records_witness :
    (blockRecords blockBlank).length = 36 ∧
    (∀ r ∈ blockRecords blockBlank, r.length = 80) :=
  ⟨(header_block_36_records blockBlank (by simp [blockBlank])).1,
   (header_block_36_records blockBlank (by simp [blockBlank])).2.1⟩

/-- C9: a record whose trimmed keyword is none of `END`, `CONTINUE`,
`COMMENT`, `HISTORY`, or blank, and whose characters at positions 8–9 are
not `"= "`, always parses: the keyword comes back with `record[8:]`
right-trimmed as a string value and no comment, and the record loop
(entered past record 1) inserts exactly that string entry. -/
theorem bare_keyword_record_is_string_entry (record : PyStr)
    (h1 : rstripSp (record.take 8) ∉
      [strEND, strCONTINUE, strCOMMENT, strHISTORY, ([] : PyStr)])
    (h2 : (record.drop 8).take 2 ≠ [61, 32]) :
    parse_keyword record =
      .ok (some (rstripSp (record.take 8)),
           some (.str (rstripSp (record.drop 8))), none) ∧
    (∀ rest n p kws, 1 ≤ n →
      procRecords (record :: rest) n p kws =
        procRecords rest (n + 1) p
          (insertKeyword kws (rstripSp (record.take 8))
            (.str (rstripSp (record.drop 8))))) := by
  simp only [List.mem_cons, List.not_mem_nil, or_false, not_or] at h1
  obtain ⟨hEnd, hCont, hComm, hHist, hBlank⟩ := h1
  have hparse : parse_keyword record =
      .ok (some (rstripSp (record.take 8)),
           some (.str (rstripSp (record.drop 8))), none) := by
    unfold parse_keyword
    rw [if_neg hEnd, if_neg]
    rintro (hc | ⟨-, hm⟩)
    · exact hCont hc
    · exact h2 hm
  refine ⟨hparse, ?_⟩
  intro rest n p kws hn
  have h3 : decide (n + 1 = 1) = false := decide_eq_false (by omega)
  conv_lhs => rw [procRecords]
  rw [hparse]
  dsimp only
  simp [h3]
  intro h0
  exact absurd h0 (by omega)

/-- C9 witness: the record `FOO     bar` (padded to 80 characters). -/
theorem bare_keyword_record_witness :
    parse_keyword recFOO =
      .ok (some [70, 79, 79], some (.str [98, 97, 114]), none) :=
  (bare_keyword_record_is_string_entry recFOO (by decide) (by decide)).1

/-! ### Freshness of the duplicate-suffix probe -/

/-- `digitsRev` recovers its input when given enough fuel. -/
theorem digitsRev_spec : ∀ fuel n, n ≤ fuel →
    Nat.ofDigits 10 (digitsRev fuel n) = n := by
  intro fuel
  induction fuel with
  | zero =>
    intro n hn
    interval_cases n
    simp [digitsRev]
  | succ f ih =>
    intro n hn
    by_cases h0 : n = 0
    · simp [digitsRev, h0]
    · rw [digitsRev, if_neg h0]
      have hlt : n / 10 ≤ f := by
        have := Nat.div_lt_self (Nat.pos_of_ne_zero h0) (by omega : 1 < 10)
        omega
      rw [Nat.ofDigits_cons, ih (n / 10) hlt]
      omega

/-- `natDigits` is injective on positive numbers. -/
theorem natDigits_inj_pos (m n : Nat) (hm : m ≠ 0) (hn : n ≠ 0)
    (h : natDigits m = natDigits n) : m = n := by
  unfold natDigits at h
  rw [if_neg hm, if_neg hn] at h
  have h2 : (digitsRev m m).reverse = (digitsRev n n).reverse :=
    List.map_injective_iff.mpr (fun a b => by omega) h
  have h3 : digitsRev m m = digitsRev n n := List.reverse_injective h2
  have := digitsRev_spec m m le_rfl
  rw [h3, digitsRev_spec n n le_rfl] at this
  omega

/-- A list never equals itself extended by a non-empty suffix. -/
theorem append_cons_ne (l : PyStr) (a : Nat) (t : PyStr) : l ++ a :: t ≠ l := by
  intro h
  have := congrArg List.length h
  simp [List.length_append] at this

/-- The candidate names of the duplicate probe are pairwise distinct. -/
theorem mkName_inj (kw : PyStr) : Function.Injective (mkName kw) := by
  intro j k h
  match j, k with
  | 0, 0 => rfl
  | 0, k + 1 => exact absurd h.symm (append_cons_ne kw 46 (natDigits (k + 1)))
  | j + 1, 0 => exact absurd h (append_cons_ne kw 46 (natDigits (j + 1)))
  | j + 1, k + 1 =>
    simp only [mkName] at h
    have h' := List.append_cancel_left h
    simp only [List.cons.injEq, true_and] at h'
    have := natDigits_inj_pos (j + 1) (k + 1) (by omega) (by omega) h'
    omega

/-- Among the first `keys.length + 1` candidate names, one is unused. -/
theorem exists_fresh (kw : PyStr) (keys : List PyStr) :
    ∃ k, k ≤ keys.length ∧ mkName kw k ∉ keys := by
  by_contra hc
  push_neg at hc
  have hnd : ((List.range (keys.length + 1)).map (mkName kw)).Nodup :=
    (List.nodup_range _).map (mkName_inj kw)
  have h1 : ((List.range (keys.length + 1)).map (mkName kw)).toFinset.card =
      keys.length + 1 := by
    rw [List.toFinset_card_of_nodup hnd, List.length_map, List.length_range]
  have h2 : ((List.range (keys.length + 1)).map (mkName kw)).toFinset ⊆
      keys.toFinset := by
    intro x hx
    rw [List.mem_toFinset, List.mem_map] at hx
    obtain ⟨k, hk, rfl⟩ := hx
    rw [List.mem_range] at hk
    exact List.mem_toFinset.mpr (hc k (by omega))
  have h3 := List.toFinset_card_le keys
  have h4 := Finset.card_le_card h2
  omega

/-- The probe returns an unused name whenever one exists in its fuel
range. -/
theorem probeLoop_fresh (kw : PyStr) (keys : List PyStr) : ∀ fuel d,
    (∃ k, d ≤ k ∧ k < d + fuel ∧ mkName kw k ∉ keys) →
      probeLoop kw keys fuel d ∉ keys := by
  intro fuel
  induction fuel with
  | zero =>
    rintro d ⟨k, h1, h2, -⟩
    omega
  | succ f ih =>
    rintro d ⟨k, h1, h2, h3⟩
    simp only [probeLoop]
    by_cases hm : mkName kw d ∈ keys
    · rw [if_pos hm]
      apply ih
      have hne : k ≠ d := fun he => h3 (he ▸ hm)
      exact ⟨k, by omega, by omega, h3⟩
    · rw [if_neg hm]
      exact hm

/-- The probed key is always fresh: `read_header` never overwrites. -/
theorem freshKey_not_mem (kw : PyStr) (keys : List PyStr) :
    freshKey kw keys ∉ keys := by
  obtain ⟨k, hk, hfresh⟩ := exists_fresh kw keys
  exact probeLoop_fresh kw keys (keys.length + 1) 0 ⟨k, by omega, by omega, hfresh⟩

/-- Insertion with the duplicate probe appends a new entry, preserving
every existing one. -/
theorem insertKeyword_eq_append (kws : Header) (kw : PyStr) (v : PyValue) :
    insertKeyword kws kw v = kws ++ [(freshKey kw (keysOf kws), v)] := by
  unfold insertKeyword dictInsert
  rw [if_neg (freshKey_not_mem kw (keysOf kws))]

/-- C6 amended: the k-th duplicate of a keyword is stored under the
synthesized key of keyword, dot and k, with values in original record
order — shown for a keyword inserted three times into a fresh mapping. -/
theorem duplicate_suffix_keys (kw : PyStr) (v1 v2 v3 : PyValue) :
    insertKeyword (insertKeyword (insertKeyword [] kw v1) kw v2) kw v3 =
      [(kw, v1), (kw ++ [46, 49], v2), (kw ++ [46, 50], v3)] := by
  have hd1 : natDigits 1 = [49] := rfl
  have hd2 : natDigits 2 = [50] := rfl
  have hne1 : kw ++ [46, 49] ≠ kw := append_cons_ne kw 46 [49]
  have hne2 : kw ++ [46, 50] ≠ kw := append_cons_ne kw 46 [50]
  have hne3 : kw ++ [46, 50] ≠ kw ++ [46, 49] := by
    intro h
    have := List.append_cancel_left h
    simp at this
  have h1 : insertKeyword [] kw v1 = [(kw, v1)] := by
    simp [insertKeyword, dictInsert, freshKey, keysOf, probeLoop, mkName]
  have hf2 : freshKey kw [kw] = kw ++ [46, 49] := by
    simp [freshKey, probeLoop, mkName, hd1, hne1]
  have h2 : insertKeyword [(kw, v1)] kw v2 = [(kw, v1), (kw ++ [46, 49], v2)] := by
    simp [insertKeyword, dictInsert, keysOf, hf2, hne1]
  have hf3 : freshKey kw [kw, kw ++ [46, 49]] = kw ++ [46, 50] := by
    simp [freshKey, probeLoop, mkName, hd1, hd2, hne1, hne2, hne3]
  have h3 : insertKeyword [(kw, v1), (kw ++ [46, 49], v2)] kw v3 =
      [(kw, v1), (kw ++ [46, 49], v2), (kw ++ [46, 50], v3)] := by
    simp [insertKeyword, dictInsert, keysOf, hf3, hne2, hne3]
  rw [h1, h2, h3]

/-- C6 counterexample: commentary keywords are *not* exempt from the
uniqueness/suffix mechanism — a header whose records carry two `COMMENT`
free-text records stores the second under the synthesized key
`COMMENT.1`. -/
theorem comments_not_exempt_from_suffix :
    read_header srcTwoComments true =
      .ok (headerTwoComments, ⟨srcTwoComments.data, 2880⟩) ∧
    strCOMMENT ++ [46, 49] ∈ keysOf headerTwoComments :=
  ⟨rfl, by decide⟩

/-! ### Entry counting (one entry per value-bearing record) -/

/-- A successful record-loop run grows the mapping by exactly the number
of value-bearing non-terminator records, and stops exactly when it met
the terminator. -/
theorem procRecords_entry_count (recs : List PyStr) : ∀ n p kws kws' n' ended,
    procRecords recs n p kws = .ok (kws', n', ended) →
      kws'.length = kws.length + (countRecs recs).1 ∧
        ended = (countRecs recs).2 := by
  induction recs with
  | nil =>
    intro n p kws kws' n' ended h
    simp only [procRecords, Except.ok.injEq, Prod.mk.injEq] at h
    simp [countRecs, ← h.1, ← h.2.2]
  | cons r rest ih =>
    intro n p kws kws' n' ended h
    rw [procRecords] at h
    cases hp : parse_keyword r with
    | error e =>
      rw [hp] at h
      dsimp only at h
      split at h <;> simp at h
    | ok t =>
      obtain ⟨kw, v, c⟩ := t
      rw [hp] at h
      dsimp only at h
      split at h
      · simp at h
      · cases kw with
        | none =>
          simp only [Except.ok.injEq, Prod.mk.injEq] at h
          simp [countRecs, hp, ← h.1, ← h.2.2]
        | some kwd =>
          dsimp only at h
          cases v with
          | none =>
            have := ih (n + 1) p kws kws' n' ended h
            simpa [countRecs, hp] using this
          | some vv =>
            have h5 := ih (n + 1) p _ kws' n' ended h
            rw [insertKeyword_eq_append, List.length_append] at h5
            simp only [countRecs, hp, List.length_singleton] at h5 ⊢
            refine ⟨?_, h5.2⟩
            have := h5.1
            omega

/-- A successful header read returns one mapping entry per value-bearing
record counted block-by-block along the read. -/
theorem read_headerLoop_count (p : Bool) : ∀ fuel s kws n h s',
    read_headerLoop p fuel s kws n = .ok (h, s') →
      h.length = kws.length + countLoop fuel s := by
  intro fuel
  induction fuel with
  | nil =>
    intro s kws n h s' hh
    rw [read_headerLoop] at hh
    split at hh <;> simp at hh
  | cons b fuel ih =>
    intro s kws n h s' hh
    rw [read_headerLoop] at hh
    rw [countLoop]
    cases hrb : read_block s with
    | mk blk s1 =>
      rw [hrb] at hh
      cases blk with
      | none =>
        dsimp only at hh ⊢
        split at hh <;> simp at hh
      | some block =>
        dsimp only at hh ⊢
        split at hh
        · simp at hh
        · cases hpc : procRecords (blockRecords block) n p kws with
          | error e => rw [hpc] at hh; simp at hh
          | ok t =>
            obtain ⟨kws1, n1, ended⟩ := t
            rw [hpc] at hh
            dsimp only at hh
            obtain ⟨hlen, hend⟩ :=
              procRecords_entry_count (blockRecords block) n p kws kws1 n1 ended hpc
            cases ended with
            | true =>
              rw [if_pos rfl] at hh
              simp only [Except.ok.injEq, Prod.mk.injEq] at hh
              obtain ⟨rfl, -⟩ := hh
              rw [← hend, if_pos rfl]
              omega
            | false =>
              rw [if_neg (by simp)] at hh
              have := ih s1 kws1 n1 h s' hh
              rw [← hend, if_neg (by simp)]
              omega

/-- C10: header insertion in `read_header` never overwrites an existing
entry — the synthesized-key probe always lands on an unused key, so every
insertion appends — and a successful read returns a mapping with exactly
one entry per value-bearing non-terminator record processed. -/
theorem header_insertion_never_overwrites :
    (∀ kws kw v, freshKey kw (keysOf kws) ∉ keysOf kws ∧
      insertKeyword kws kw v = kws ++ [(freshKey kw (keysOf kws), v)]) ∧
    (∀ s p h s', read_header s p = .ok (h, s') → h.length = headerCount s) := by
  constructor
  · intro kws kw v
    exact ⟨freshKey_not_mem _ _, insertKeyword_eq_append _ _ _⟩
  · intro s p h s' hh
    have := read_headerLoop_count p (s.data.drop s.pos) s [] 0 h s' hh
    simpa [headerCount] using this

/-- C10 witness: a source with two value records, one null-value record
and the terminator yields a mapping of exactly two plus one (`SIMPLE`)
entries, matching the record count. -/
theorem header_insertion_never_overwrites_witness :
    headerCountRes.length = headerCount srcCount :=
  header_insertion_never_overwrites.2 srcCount true headerCountRes
    ⟨srcCount.data, 2880⟩ rfl

/-! ### The quoted-string round trip -/

/-- Replacement on the empty string is empty regardless of fuel. -/
theorem pyReplaceFuel_nil (fuel : Nat) (pat rep : PyStr) :
    pyReplaceFuel fuel [] pat rep = [] := by
  cases fuel <;> rfl

/-- Decoding `''` → `'` undoes the quote doubling. -/
theorem pyReplace_encodeQuoted (v : PyStr) : ∀ fuel,
    (encodeQuoted v).length ≤ fuel →
      pyReplaceFuel fuel (encodeQuoted v) [39, 39] [39] = v := by
  induction v with
  | nil =>
    intro fuel _
    simp [encodeQuoted, pyReplaceFuel_nil]
  | cons c v ih =>
    intro fuel hf
    by_cases hc : c = 39
    · subst hc
      have he : encodeQuoted (39 :: v) = 39 :: 39 :: encodeQuoted v := by
        simp [encodeQuoted]
      rw [he] at hf ⊢
      simp only [List.length_cons] at hf
      cases fuel with
      | zero => omega
      | succ f =>
        rw [pyReplaceFuel]
        rw [if_pos (by simp [List.isPrefixOf])]
        have h2 : List.drop ([39, 39] : PyStr).length (39 :: 39 :: encodeQuoted v)
            = encodeQuoted v := rfl
        rw [h2, ih f (by omega)]
        rfl
    · have he : encodeQuoted (c :: v) = c :: encodeQuoted v := by
        simp [encodeQuoted, hc]
      rw [he] at hf ⊢
      simp only [List.length_cons] at hf
      cases fuel with
      | zero => omega
      | succ f =>
        rw [pyReplaceFuel]
        rw [if_neg (by
          simp only [List.isPrefixOf, Bool.and_eq_true, beq_iff_eq,
            decide_eq_true_eq, not_and]
          intro _ h39
          exact absurd h39.symm hc)]
        rw [ih f (by omega)]

/-- Doubling quotes keeps a printable string printable. -/
theorem encodeQuoted_printable (v : PyStr) (hp : ∀ c ∈ v, printable c = true) :
    ∀ c ∈ encodeQuoted v, printable c = true := by
  induction v with
  | nil => simp [encodeQuoted]
  | cons a v ih =>
    intro c hc
    simp only [encodeQuoted] at hc
    rcases List.mem_append.mp hc with h | h
    · by_cases ha : a = 39
      · rw [if_pos ha] at h
        simp only [List.mem_cons, List.not_mem_nil, or_false] at h
        rcases h with rfl | rfl <;> decide
      · rw [if_neg ha] at h
        simp only [List.mem_cons, List.not_mem_nil, or_false] at h
        subst h
        exact hp c (by simp)
    · exact ih (fun d hd => hp d (by simp [hd])) c h

/-- The greedy string alternative matches the whole re-encoded literal
first (its longest candidate), leaving no remainder. -/
theorem strCands_encode (v : PyStr) (hp : ∀ c ∈ v, printable c = true) :
    ∃ tl, strCands (39 :: encodeQuoted v ++ [39]) =
      (39 :: encodeQuoted v ++ [39], ([] : PyStr)) :: tl := by
  have hprint := encodeQuoted_printable v hp
  have hgd : (39 :: encodeQuoted v ++ [39]).getD ((encodeQuoted v).length + 1) 0
      = 39 := by
    rw [List.getD_append_right _ _ _ _ (by simp)]
    simp
  have htake : (39 :: encodeQuoted v ++ [39]).take ((encodeQuoted v).length + 1)
      = 39 :: encodeQuoted v := by
    conv_lhs => rw [show (encodeQuoted v).length + 1 =
      (39 :: encodeQuoted v).length from by simp]
    exact List.take_left _ _
  have hgd0 : (39 :: encodeQuoted v ++ [39]).getD 0 0 = 39 := by
    rw [List.getD_append _ _ _ _ (by simp)]
    rfl
  have hpred : (decide (1 ≤ (encodeQuoted v).length + 1) &&
      ((39 :: encodeQuoted v ++ [39]).getD 0 0 == 39) &&
      ((39 :: encodeQuoted v ++ [39]).getD ((encodeQuoted v).length + 1) 0 == 39)
      && ((39 :: encodeQuoted v ++ [39]).take ((encodeQuoted v).length + 1)).all
        printable) = true := by
    rw [hgd, htake, hgd0]
    have hall : (encodeQuoted v).all printable = true := List.all_eq_true.mpr hprint
    simp [hall, printable]
  have hlen1 : (39 :: encodeQuoted v ++ [39]).length =
      ((encodeQuoted v).length + 1) + 1 := by simp
  exact ⟨_, by
    unfold strCands quoteEnds
    rw [hlen1, List.range_succ, List.reverse_append]
    simp only [List.reverse_singleton, List.singleton_append, List.filter_cons]
    rw [if_pos hpred]
    simp only [List.map_cons]
    congr 1
    rw [show (encodeQuoted v).length + 1 + 1 =
        (39 :: encodeQuoted v ++ [39]).length from by simp]
    rw [List.take_length, List.drop_length]⟩

/-- C7: parsing the literal obtained by re-encoding a printable string
(doubling each quote and wrapping in quotes) reproduces an equal string
value — the doubled-quote escaping round-trips. -/
theorem quoted_string_roundtrip (v : PyStr) (hp : ∀ c ∈ v, printable c = true) :
    parse_keyword_value (39 :: encodeQuoted v ++ [39]) =
      .ok (some (.str v), none) := by
  obtain ⟨tl, hstr⟩ := strCands_encode v hp
  have hdw : (39 :: encodeQuoted v ++ [39]).dropWhile (· == 32) =
      39 :: encodeQuoted v ++ [39] := rfl
  have hdec : ((39 :: encodeQuoted v ++ [39]).drop 1).dropLast = encodeQuoted v := by
    show (encodeQuoted v ++ [39]).dropLast = encodeQuoted v
    exact List.dropLast_concat
  have hfuel := pyReplace_encodeQuoted v (encodeQuoted v).length le_rfl
  unfold parse_keyword_value valueCands
  rw [hdw, hstr]
  show Except.ok
      (some (toPyValue (ParsedVal.str (39 :: encodeQuoted v ++ [39]))), none) =
    Except.ok (some (PyValue.str v), none)
  dsimp only [toPyValue]
  rw [hdec]
  unfold pyReplace
  rw [hfuel]

/-! ### Error classification lemmas -/

/-- The record counter never decreases across a record-loop run. -/
theorem procRecords_ok_mono (recs : List PyStr) : ∀ n p kws kws' n' ended,
    procRecords recs n p kws = .ok (kws', n', ended) → n ≤ n' := by
  induction recs with
  | nil =>
    intro n p kws kws' n' ended h
    simp only [procRecords, Except.ok.injEq, Prod.mk.injEq] at h
    obtain ⟨-, h2, -⟩ := h
    omega
  | cons r rest ih =>
    intro n p kws kws' n' ended h
    rw [procRecords] at h
    cases hp : parse_keyword r with
    | error e =>
      rw [hp] at h
      dsimp only at h
      split at h <;> simp at h
    | ok t =>
      obtain ⟨kw, v, c⟩ := t
      rw [hp] at h
      dsimp only at h
      split at h
      · simp at h
      · cases kw with
        | none =>
          simp only [Except.ok.injEq, Prod.mk.injEq] at h
          obtain ⟨-, h2, -⟩ := h
          omega
        | some kwd =>
          dsimp only at h
          cases v with
          | none => have := ih (n + 1) p kws kws' n' ended h; omega
          | some vv => have := ih (n + 1) p _ kws' n' ended h; omega

/-- A non-empty record list advances the counter. -/
theorem procRecords_cons_ok_succ (r : PyStr) (rest : List PyStr) (n : Nat)
    (p : Bool) (kws kws' : Header) (n' : Nat) (ended : Bool)
    (h : procRecords (r :: rest) n p kws = .ok (kws', n', ended)) :
    n + 1 ≤ n' := by
  rw [procRecords] at h
  cases hp : parse_keyword r with
  | error e =>
    rw [hp] at h
    dsimp only at h
    split at h <;> simp at h
  | ok t =>
    obtain ⟨kw, v, c⟩ := t
    rw [hp] at h
    dsimp only at h
    split at h
    · simp at h
    · cases kw with
      | none =>
        simp only [Except.ok.injEq, Prod.mk.injEq] at h
        obtain ⟨-, h2, -⟩ := h
        omega
      | some kwd =>
        dsimp only at h
        cases v with
        | none =>
          have := procRecords_ok_mono rest (n + 1) p kws kws' n' ended h
          omega
        | some vv =>
          have := procRecords_ok_mono rest (n + 1) p _ kws' n' ended h
          omega

/-- Past record 1, grammar failures surface as `MalformedHeader` record
errors, never as `NotThisFormat`. -/
theorem procRecords_ne_ntf (recs : List PyStr) : ∀ n p kws, 1 ≤ n →
    procRecords recs n p kws ≠ .error .notThisFormat := by
  induction recs with
  | nil =>
    intro n p kws hn h
    simp [procRecords] at h
  | cons r rest ih =>
    intro n p kws hn h
    rw [procRecords] at h
    cases hp : parse_keyword r with
    | error e =>
      rw [hp] at h
      dsimp only at h
      split at h
      · rename_i hcond
        omega
      · simp at h
    | ok t =>
      obtain ⟨kw, v, c⟩ := t
      rw [hp] at h
      dsimp only at h
      split at h
      · rename_i hcond
        simp only [Bool.and_eq_true, decide_eq_true_eq] at hcond
        omega
      · cases kw with
        | none => simp at h
        | some kwd =>
          dsimp only at h
          cases v with
          | none => exact ih (n + 1) p kws (by omega) h
          | some vv => exact ih (n + 1) p _ (by omega) h

/-- After the first block has begun (counter positive), the block loop can
fail in several ways but never with `NotThisFormat`. -/
theorem read_headerLoop_ne_ntf (p : Bool) : ∀ fuel s kws n, 1 ≤ n →
    read_headerLoop p fuel s kws n ≠ .error .notThisFormat := by
  intro fuel
  induction fuel with
  | nil =>
    intro s kws n hn h
    rw [read_headerLoop] at h
    rw [if_neg (by omega)] at h
    simp at h
  | cons b fuel ih =>
    intro s kws n hn h
    rw [read_headerLoop] at h
    cases hrb : read_block s with
    | mk blk s1 =>
      rw [hrb] at h
      cases blk with
      | none =>
        dsimp only at h
        rw [if_neg (by omega)] at h
        simp at h
      | some block =>
        dsimp only at h
        split at h
        · simp at h
        · cases hpc : procRecords (blockRecords block) n p kws with
          | error e =>
            rw [hpc] at h
            simp only [Except.error.injEq] at h
            have := procRecords_ne_ntf (blockRecords block) n p kws hn
            rw [hpc, h] at this
            exact this rfl
          | ok t =>
            obtain ⟨kws1, n1, ended⟩ := t
            rw [hpc] at h
            dsimp only at h
            have hmono := procRecords_ok_mono (blockRecords block) n p kws kws1 n1 ended hpc
            cases ended with
            | true =>
              rw [if_pos rfl] at h
              simp at h
            | false =>
              rw [if_neg (by simp)] at h
              exact ih s1 kws1 n1 (by omega) h

/-- Starting at counter zero, a record-loop error is `NotThisFormat`
exactly when record 1 is at fault. -/
theorem procRecords_zero_err_first (r1 : PyStr) (tl : List PyStr) (p : Bool)
    (e : HdrErr) (h : procRecords (r1 :: tl) 0 p [] = .error e) :
    e = .notThisFormat ↔ rec1Fault p r1 = true := by
  rw [procRecords] at h
  unfold rec1Fault
  cases hp : parse_keyword r1 with
  | error e' =>
    rw [hp] at h
    dsimp only at h
    rw [if_pos rfl] at h
    simp only [Except.error.injEq] at h
    simp [← h]
  | ok t =>
    obtain ⟨kw, v, c⟩ := t
    rw [hp] at h
    dsimp only at h
    cases hfr : firstRecordOK p kw v with
    | false =>
      rw [if_pos (by simp [hfr])] at h
      simp only [Except.error.injEq] at h
      simp [← h, hfr]
    | true =>
      rw [if_neg (by simp [hfr])] at h
      simp only [hfr, Bool.not_true, Bool.false_eq_true, iff_false]
      cases kw with
      | none => simp at h
      | some kwd =>
        dsimp only at h
        cases v with
        | none => exact fun he => procRecords_ne_ntf tl 1 p [] (by omega) (he ▸ h)
        | some vv =>
          exact fun he => procRecords_ne_ntf tl 1 p _ (by omega) (he ▸ h)

/-- Starting at counter zero, a successful record-loop run means record 1
was not at fault, and the counter moved past it. -/
theorem procRecords_zero_ok_first (r1 : PyStr) (tl : List PyStr) (p : Bool)
    (kws' : Header) (n' : Nat) (ended : Bool)
    (h : procRecords (r1 :: tl) 0 p [] = .ok (kws', n', ended)) :
    rec1Fault p r1 = false ∧ 1 ≤ n' := by
  refine ⟨?_, procRecords_cons_ok_succ r1 tl 0 p [] kws' n' ended h⟩
  rw [procRecords] at h
  unfold rec1Fault
  cases hp : parse_keyword r1 with
  | error e' =>
    rw [hp] at h
    dsimp only at h
    rw [if_pos rfl] at h
    simp at h
  | ok t =>
    obtain ⟨kw, v, c⟩ := t
    rw [hp] at h
    dsimp only at h
    cases hfr : firstRecordOK p kw v with
    | false =>
      rw [if_pos (by simp [hfr])] at h
      simp at h
    | true => simp [hfr]

/-- The partition of a block starts with its first 80 bytes. -/
theorem blockRecords_head (block : List Nat) :
    blockRecords block = block.take 80 ::
      (List.range 35).map (fun k => (block.drop (80 * (k + 1))).take 80) := by
  unfold blockRecords
  rw [show (36 : Nat) = 35 + 1 from rfl, List.range_succ_eq_map]
  simp [List.map_map, Function.comp_def]

/-- C8: a header read fails with `NotThisFormat` exactly when the very
first record or block of the unit is at fault: the first 2880-byte block
short (or the source empty), or — the first block being complete and
printable — a grammar failure on record 1 or record 1 failing the
`SIMPLE`/`XTENSION` requirement.  Structural violations elsewhere
(short continuation block, non-printable byte — anywhere, including the
first block — or grammar failure after record 1) surface as the distinct
`MalformedHeader` errors. -/
theorem ntf_exactly_at_first_fault (s : Src) (p : Bool) (e : HdrErr)
    (h : read_header s p = .error e) :
    e = .notThisFormat ↔ firstFault s p = true := by
  unfold read_header at h
  unfold firstFault
  cases hfl : s.data.drop s.pos with
  | nil =>
    rw [hfl] at h
    rw [read_headerLoop, if_pos rfl] at h
    simp only [Except.error.injEq] at h
    subst h
    simp [hasLen]
  | cons b rest' =>
    rw [hfl] at h
    rw [read_headerLoop] at h
    unfold read_block at h
    rw [hfl] at h
    cases hhl : hasLen (b :: rest') 2880 with
    | false =>
      rw [hhl, if_neg (by simp)] at h
      dsimp only at h
      rw [if_pos rfl] at h
      simp only [Except.error.injEq] at h
      subst h
      simp [hhl]
    | true =>
      rw [hhl, if_pos rfl] at h
      dsimp only at h
      simp only [Bool.not_true, Bool.false_eq_true, if_false]
      cases hprt : ((b :: rest').take 2880).all printable with
      | false =>
        rw [if_pos (by rw [hprt]; rfl)] at h
        simp only [Except.error.injEq] at h
        subst h
        simp
      | true =>
        rw [if_neg (by rw [hprt]; simp)] at h
        simp only [Bool.not_true, Bool.false_eq_true, if_false]
        rw [blockRecords_head] at h
        cases hpc : procRecords (((b :: rest').take 2880).take 80 ::
            (List.range 35).map
              (fun k => (((b :: rest').take 2880).drop (80 * (k + 1))).take 80))
            0 p [] with
        | error e' =>
          rw [hpc] at h
          simp only [Except.error.injEq] at h
          subst h
          exact procRecords_zero_err_first _ _ p e' hpc
        | ok t =>
          obtain ⟨kws1, n1, ended⟩ := t
          rw [hpc] at h
          dsimp only at h
          obtain ⟨hfault, hn1⟩ := procRecords_zero_ok_first _ _ p kws1 n1 ended hpc
          rw [show rec1Fault p (((b :: rest').take 2880).take 80) = false from hfault]
          simp only [Bool.false_eq_true, iff_false]
          cases ended with
          | true =>
            rw [if_pos rfl] at h
            simp at h
          | false =>
            rw [if_neg (by simp)] at h
            exact fun he => read_headerLoop_ne_ntf p rest' _ kws1 n1 hn1 (he ▸ h)

/-- C8 witness: the empty source fails `NotThisFormat`, and indeed its
first block is at fault. -/
theorem ntf_exactly_at_first_fault_witness : firstFault ⟨[], 0⟩ true = true :=
  (ntf_exactly_at_first_fault ⟨[], 0⟩ true .notThisFormat rfl).mp rfl

/-- C7 witness: the token `'it''s'` parses to the string `it's`
(codes 105 116 39 115). -/
theorem quoted_string_roundtrip_witness :
    parse_keyword_value (39 :: encodeQuoted [105, 116, 39, 115] ++ [39]) =
      .ok (some (.str [105, 116, 39, 115]), none) :=
  quoted_string_roundtrip [105, 116, 39, 115] (by decide)

end Fits
